import Mathlib

/-!
# Verification of the file-vault deduplication core

Shallow embedding of the deduplication engine of the `abnormal-security---file-vault`
repository (`backend/files/models.py`, `backend/files/views.py`,
`backend/files/serializers.py`), together with theorems settling the frozen claims
about its specification.

Strings are modelled as `List Char`, byte streams as `List Nat`, the record table
and blob store as explicit lists carried in a `VaultState`.  The SHA-256 hasher is
an external collaborator and is passed as a parameter `hash : List Nat → Option (List Char)`
(`none` models a storage failure while reading the stream); all that the engine uses
is that it is a deterministic function of the bytes.
-/

/-- ASCII lower-casing of one character, as `str.lower` acts on ASCII input
(`models.py` line 47 and `views.py` line 123 lower-case the extension). -/
def pyLower (c : Char) : Char :=
  if h : 65 ≤ c.toNat ∧ c.toNat ≤ 90 then
    Char.ofNatAux (c.toNat + 32) (Or.inl (by omega))
  else c

/-- Index of the last occurrence of `c` in the list (CPython's `str.rfind`),
`none` when absent. -/
def rfindPos (c : Char) : List Char → Option Nat
  | [] => none
  | x :: xs =>
    match rfindPos c xs with
    | some j => some (j + 1)
    | none => if x = c then some 0 else none

/-- The extension part (dot included) returned by `os.path.splitext`, as implemented
by CPython `genericpath._splitext` with `sep = '/'` and `extsep = '.'`: the suffix
from the last dot, provided the last dot comes after the last separator and some
character strictly between the separator and that dot is not itself a dot
(so the extension of a dotfile such as `.bashrc` is empty). -/
def splitextExt (p : List Char) : List Char :=
  let sepIndex : Int := match rfindPos '/' p with | some i => (i : Int) | none => -1
  match rfindPos '.' p with
  | none => []
  | some d =>
    if sepIndex < (d : Int) then
      if ((p.take d).drop (sepIndex + 1).toNat).any (fun ch => decide (ch ≠ '.')) then
        p.drop d
      else []
    else []

/-- Python `str.strip('.')`: remove the dots at both ends of the string. -/
def stripDots (l : List Char) : List Char :=
  ((l.dropWhile (fun ch => decide (ch = '.'))).reverse.dropWhile (fun ch => decide (ch = '.'))).reverse

/-- Derived file extension: `os.path.splitext(name)[1].lower().strip('.')`
(`views.py` line 123 and `models.py` lines 45-47). -/
def fileExtensionOf (name : List Char) : List Char :=
  stripDots ((splitextExt name).map pyLower)

/-- Whether `pre` is a leading run of `l`. -/
def isPrefixB : List Char → List Char → Bool
  | [], _ => true
  | _ :: _, [] => false
  | a :: as, b :: bs => a = b && isPrefixB as bs

/-- Python's `needle in haystack` substring test. -/
def containsSub (needle : List Char) : List Char → Bool
  | [] => isPrefixB needle []
  | c :: rest => isPrefixB needle (c :: rest) || containsSub needle rest

/-- Derived content category from the declared media type
(`models.py` lines 50-61): the primary token (before `/`) when it is
`image`/`video`/`audio`, else `document` for types containing `pdf`, `text` or
`document`, else `archive` for types containing `zip` or `compressed`, else `other`. -/
def categoryOf (fileType : List Char) : List Char :=
  let mainType := fileType.takeWhile (fun ch => decide (ch ≠ '/'))
  if mainType = "image".toList ∨ mainType = "video".toList ∨ mainType = "audio".toList then
    mainType
  else if containsSub "pdf".toList fileType then "document".toList
  else if containsSub "text".toList fileType ∨ containsSub "document".toList fileType then
    "document".toList
  else if containsSub "zip".toList fileType ∨ containsSub "compressed".toList fileType then
    "archive".toList
  else "other".toList

/-- The Metadata Enricher: the `(extension, category)` pair a freshly created record
ends up carrying, combining `views.py` line 123 (extension placed in the create data)
with `models.py` `File.save` lines 43-61 (category filled on first save; left unset
when the declared type is empty, since `if ... and self.file_type` fails then). -/
def enrich (name fileType : List Char) : List Char × List Char :=
  (fileExtensionOf name, if fileType = [] then [] else categoryOf fileType)

/-- The extension exactly as the claim words it: the text after the last `.` of the
filename, lower-cased, with no leading dot, and empty when the filename has no dot. -/
def claimedExtension (name : List Char) : List Char :=
  match rfindPos '.' name with
  | none => []
  | some d => (name.drop (d + 1)).map pyLower

/-- The extension as the amended claim words it: the text after the last `.`,
lower-cased, except that it is empty when there is no dot, when the last dot
precedes the last `/`, or when every character between the last `/` (or the start)
and the last dot is itself a dot (dotfiles such as `.bashrc`). -/
def specExtensionAmended (p : List Char) : List Char :=
  match rfindPos '.' p with
  | none => []
  | some d =>
    let sepIndex : Int := match rfindPos '/' p with | some i => (i : Int) | none => -1
    if sepIndex < (d : Int) ∧
        ((p.take d).drop (sepIndex + 1).toNat).any (fun ch => decide (ch ≠ '.')) then
      (p.drop (d + 1)).map pyLower
    else []

/-- The category as the amended claim words it: the original claim's ordered rules,
except that an empty media type leaves the category unset (empty). -/
def specCategoryAmended (fileType : List Char) : List Char :=
  if fileType = [] then [] else
  let primary := fileType.takeWhile (fun ch => decide (ch ≠ '/'))
  if primary = "image".toList ∨ primary = "video".toList ∨ primary = "audio".toList then
    primary
  else if containsSub "pdf".toList fileType ∨ containsSub "text".toList fileType ∨
      containsSub "document".toList fileType then "document".toList
  else if containsSub "zip".toList fileType ∨ containsSub "compressed".toList fileType then
    "archive".toList
  else "other".toList

/-- One row of the `files_file` table (`models.py` `File`).  `fileHash` is the
content fingerprint (`file_hash`, nullable, unique); empty `fileExtension` /
`contentCategory` model the unset (null/blank) state the code tests with `if not …`. -/
structure FileRecord where
  id : Nat
  fileHash : Option (List Char)
  originalFilename : List Char
  fileType : List Char
  size : Nat
  referenceCount : Nat
  fileExtension : List Char
  contentCategory : List Char
  description : List Char
  tags : List (List Char)
  isFavorite : Bool
  deriving DecidableEq

/-- `File.saved_space` (`models.py` lines 36-41): storage avoided by deduplication. -/
def FileRecord.saved_space (r : FileRecord) : Nat :=
  if 1 < r.referenceCount then r.size * (r.referenceCount - 1) else 0

/-- The durable state the engine mutates: the record table, the blob store
(modelled, as in the spec, as the set of fingerprints whose bytes are stored),
a fresh-id counter standing in for `uuid4`, and a counter of `cache.clear()`
calls (the explicit cache-invalidation hook). -/
structure VaultState where
  records : List FileRecord
  blobs : List (List Char)
  nextId : Nat
  cacheClears : Nat
  deriving DecidableEq

/-- One incoming upload request as `FileViewSet.create` reads it: the optional
file part, its declared name/content type/size, and the optional metadata fields. -/
structure Upload where
  file : Option (List Nat)
  name : List Char
  contentType : List Char
  size : Nat
  description : Option (List Char)
  tags : Option (List (List Char))
  isFavorite : Option Bool
  deriving DecidableEq

/-- `File.save` (`models.py` lines 43-63): on every save, fill the extension from
the filename when unset, and the category from the media type when unset. -/
def modelSave (r : FileRecord) : FileRecord :=
  { r with
    fileExtension :=
      if r.fileExtension = [] ∧ r.originalFilename ≠ [] then fileExtensionOf r.originalFilename
      else r.fileExtension
    contentCategory :=
      if r.contentCategory = [] ∧ r.fileType ≠ [] then categoryOf r.fileType
      else r.contentCategory }

/-- `File.objects.filter(file_hash=fp).first()` (`views.py` line 105). -/
def findByFingerprint (st : VaultState) (fp : List Char) : Option FileRecord :=
  st.records.find? (fun r => decide (r.fileHash = some fp))

/-- Row lookup by primary key (`self.get_object()` / `File.objects.get(id=...)`). -/
def findById (st : VaultState) (i : Nat) : Option FileRecord :=
  st.records.find? (fun r => decide (r.id = i))

/-- Persist a mutated row by primary key (`instance.save()`). -/
def VaultState.updateRecord (st : VaultState) (r' : FileRecord) : VaultState :=
  { st with records := st.records.map (fun x => if x.id = r'.id then r' else x) }

/-- The duplicate branch of `FileViewSet.create` (`views.py` lines 107-115): the
existing record with its reference count incremented, as `existing_file.save()`
persists it; the request's declared filename/media type and optional metadata are
discarded.  No cache invalidation happens on this path. -/
def incrementExisting (r : FileRecord) : FileRecord :=
  modelSave { r with referenceCount := r.referenceCount + 1 }

/-- The row constructed from the create data (`views.py` lines 118-139) as it
stands after `serializer.save()` runs `File.save`: the hash is not yet set
(`file_hash` is read-only on the serializer), unsupplied metadata takes the model
defaults, and the category is enriched on save. -/
def buildNewRecord (st : VaultState) (u : Upload) : FileRecord :=
  modelSave
    { id := st.nextId
      fileHash := none
      originalFilename := u.name
      fileType := u.contentType
      size := u.size
      referenceCount := 1
      fileExtension := fileExtensionOf u.name
      contentCategory := []
      description := match u.description with | some d => d | none => []
      tags := match u.tags with | some t => t | none => []
      isFavorite := match u.isFavorite with | some f => f | none => false }

/-- Result of one `FileViewSet.create` request. -/
inductive IngestOutcome where
  /-- 200/201 with the serialized record; `isNewContent` distinguishes the branches. -/
  | ok (record : FileRecord) (isNewContent : Bool)
  /-- 400 `'No file provided'` (`views.py` line 99). -/
  | noFile
  /-- The hasher could not read the stream; the exception propagates before any
  record is touched (`views.py` line 102 runs first). -/
  | hashUnavailable
  /-- `IntegrityError` from the unique index on `file_hash`; `create` has no
  handler for it, so it surfaces to the caller. -/
  | constraintViolation
  deriving DecidableEq

/-- The record as it stands at the end of a successful create: the freshly built
row with its fingerprint set by `instance.file_hash = file_hash; instance.save()`
(`views.py` lines 146-147). -/
def commitRecord (st : VaultState) (u : Upload) (fp : List Char) : FileRecord :=
  modelSave { buildNewRecord st u with fileHash := some fp }

/-- The create-new branch of `FileViewSet.create` (`views.py` lines 118-153):
`serializer.save()` inserts the row with a null hash and writes the blob, then
`instance.file_hash = …; instance.save()` sets the fingerprint.  The unique index
on `file_hash` rejects that second save when some record already carries the same
fingerprint, and the view has no `except` around it.  On success the cache is
cleared (line 150). -/
def createCommit (st : VaultState) (u : Upload) (fp : List Char) :
    IngestOutcome × VaultState :=
  let st1 : VaultState :=
    { st with
      records := st.records ++ [buildNewRecord st u]
      nextId := st.nextId + 1
      blobs := fp :: st.blobs }
  if st1.records.any (fun r => decide (r.fileHash = some fp)) then
    (.constraintViolation, st1)
  else
    let st2 := st1.updateRecord (commitRecord st u fp)
    (.ok (commitRecord st u fp) true, { st2 with cacheClears := st2.cacheClears + 1 })

/-- `FileViewSet.create` after the fingerprint lookup: `found` is what the
duplicate check observed, and the rest of the request body runs against `st`.
Splitting here makes the check-then-act window explicit: sequentially `st` is the
state the lookup ran on, while under the concurrent-create race the lookup's
observation is stale. -/
def ingestResume (st : VaultState) (u : Upload) (fp : List Char)
    (found : Option FileRecord) : IngestOutcome × VaultState :=
  match found with
  | some existing =>
    (.ok (incrementExisting existing) false, st.updateRecord (incrementExisting existing))
  | none => createCommit st u fp

/-- `FileViewSet.create` (`views.py` lines 96-153), the Dedup Engine's `ingest`. -/
def ingest (hash : List Nat → Option (List Char)) (st : VaultState) (u : Upload) :
    IngestOutcome × VaultState :=
  match u.file with
  | none => (.noFile, st)
  | some b =>
    match hash b with
    | none => (.hashUnavailable, st)
    | some fp => ingestResume st u fp (findByFingerprint st fp)

/-- Result of one `FileViewSet.destroy` request, the Dedup Engine's `release`. -/
inductive ReleaseOutcome where
  /-- 200 with the serialized record showing the new count. -/
  | decremented (newCount : Nat)
  /-- 204, the row is gone. -/
  | deleted
  /-- 404 from `get_object`. -/
  | notFound
  deriving DecidableEq

/-- `FileViewSet.destroy` (`views.py` lines 155-166): decrement the reference count
while it exceeds one, otherwise delete the row.  Releasing the fingerprint-keyed
blob on the last-reference delete is modelled from the spec (§4.2 `release`): the
storage backend's behaviour on `instance.delete()` lives outside these sources.
No cache invalidation happens on either path. -/
def destroy (st : VaultState) (i : Nat) : ReleaseOutcome × VaultState :=
  match findById st i with
  | none => (.notFound, st)
  | some r =>
    if 1 < r.referenceCount then
      let r' := modelSave { r with referenceCount := r.referenceCount - 1 }
      (.decremented (r.referenceCount - 1), st.updateRecord r')
    else
      (.deleted,
        { st with
          records := st.records.filter (fun x => decide (¬ x.id = i))
          blobs := match r.fileHash with
            | some fp => st.blobs.filter (fun bl => decide (¬ bl = fp))
            | none => st.blobs })

/-- `FileViewSet.savings` (`views.py` lines 168-183): total saved bytes, the sum of
`size * (reference_count - 1)` over the records with `reference_count > 1`
(the `Sum(...) or 0` yields `0` on the empty aggregate). -/
def savingsTotal (rs : List FileRecord) : Nat :=
  ((rs.filter (fun r => decide (1 < r.referenceCount))).map
    (fun r => r.size * (r.referenceCount - 1))).sum

/-- The aggregate values computed by `FileViewSet.stats` (`views.py` lines 185-233),
before the display rounding/unit conversion of the response; ratios are exact
rationals. -/
structure StatsResult where
  uniqueFiles : Nat
  totalUploads : Nat
  duplicationRate : ℚ
  actualBytes : Nat
  savedBytes : Nat
  withoutDedupBytes : Nat
  efficiencyPercentage : ℚ
  deriving DecidableEq

/-- `FileViewSet.stats` over the record set (`views.py` lines 185-233). -/
def stats (rs : List FileRecord) : StatsResult :=
  let uniqueFilesCount := rs.length
  let totalUploads := (rs.map (fun r => r.referenceCount)).sum
  let totalSize := (rs.map (fun r => r.size)).sum
  let totalSaved := savingsTotal rs
  let totalSizeWithoutDedup := totalSize + totalSaved
  { uniqueFiles := uniqueFilesCount
    totalUploads := totalUploads
    duplicationRate :=
      if 0 < totalUploads then
        ((totalUploads : ℚ) - (uniqueFilesCount : ℚ)) / (totalUploads : ℚ) * 100
      else 0
    actualBytes := totalSize
    savedBytes := totalSaved
    withoutDedupBytes := totalSizeWithoutDedup
    efficiencyPercentage :=
      if 0 < totalSizeWithoutDedup then
        (totalSaved : ℚ) / (totalSizeWithoutDedup : ℚ) * 100
      else 0 }

/-- The tag merge of `FileViewSet.bulk_tag` (`views.py` lines 377-385): membership
is checked against the frozen snapshot `current_tags = set(file_obj.tags)` taken
before the loop, while appends go to the live list. -/
def addTags (existing newTags : List (List Char)) : List (List Char) :=
  let currentTags := existing
  newTags.foldl (fun acc tag => if tag ∈ currentTags then acc else acc ++ [tag]) existing

/-- Result of one `FileViewSet.bulk_tag` request. -/
inductive BulkTagOutcome where
  /-- 400 `'Both file_ids and tags are required'`. -/
  | badRequest
  /-- 200 with the update count and the ids that failed. -/
  | ok (updatedCount : Nat) (errorIds : List Nat)
  deriving DecidableEq

/-- One iteration of the `bulk_tag` loop (`views.py` lines 373-392): merge the
requested tags into the record, or record the id as an error when it is absent. -/
def bulkTagStep (tags : List (List Char)) (acc : Nat × List Nat × VaultState) (i : Nat) :
    Nat × List Nat × VaultState :=
  match findById acc.2.2 i with
  | none => (acc.1, acc.2.1 ++ [i], acc.2.2)
  | some r =>
    (acc.1 + 1, acc.2.1, acc.2.2.updateRecord (modelSave { r with tags := addTags r.tags tags }))

/-- `FileViewSet.bulk_tag` (`views.py` lines 361-401): per-id best effort; a
missing id is recorded and does not abort the rest; the cache is cleared once at
the end. -/
def bulkTag (st : VaultState) (ids : List Nat) (tags : List (List Char)) :
    BulkTagOutcome × VaultState :=
  if ids = [] ∨ tags = [] then (.badRequest, st)
  else
    let res := ids.foldl (bulkTagStep tags) (0, [], st)
    (.ok res.1 res.2.1, { res.2.2 with cacheClears := res.2.2.cacheClears + 1 })

/-- Result of one `FileViewSet.bulk_delete` request. -/
inductive BulkDeleteOutcome where
  /-- 400 `'No file IDs provided'`. -/
  | badRequest
  /-- 200 with `deleted_count`, `total_requested` and the ids that failed. -/
  | ok (deletedCount : Nat) (totalRequested : Nat) (errorIds : List Nat)
  deriving DecidableEq

/-- One iteration of the `bulk_delete` loop (`views.py` lines 334-350): decrement
or delete the row exactly as `destroy` does, counting both identically; a missing
id is recorded against that id and processing continues. -/
def bulkDeleteStep (acc : Nat × List Nat × VaultState) (i : Nat) :
    Nat × List Nat × VaultState :=
  match findById acc.2.2 i with
  | none => (acc.1, acc.2.1 ++ [i], acc.2.2)
  | some r =>
    if 1 < r.referenceCount then
      (acc.1 + 1, acc.2.1,
        acc.2.2.updateRecord (modelSave { r with referenceCount := r.referenceCount - 1 }))
    else
      (acc.1 + 1, acc.2.1,
        { acc.2.2 with
          records := acc.2.2.records.filter (fun x => decide (¬ x.id = i))
          blobs := match r.fileHash with
            | some fp => acc.2.2.blobs.filter (fun bl => decide (¬ bl = fp))
            | none => acc.2.2.blobs })

/-- `FileViewSet.bulk_delete` (`views.py` lines 323-359). -/
def bulkDelete (st : VaultState) (ids : List Nat) : BulkDeleteOutcome × VaultState :=
  if ids = [] then (.badRequest, st)
  else
    let res := ids.foldl bulkDeleteStep (0, [], st)
    (.ok res.1 ids.length res.2.1, { res.2.2 with cacheClears := res.2.2.cacheClears + 1 })

/-- At most one record per fingerprint: the uniqueness the database enforces on
the non-null `file_hash` column. -/
def hashUnique (st : VaultState) : Prop :=
  st.records.Pairwise (fun a b => a.fileHash = none ∨ a.fileHash ≠ b.fileHash)

/-- No stored record with a null fingerprint. -/
def fingerprintsSet (st : VaultState) : Prop :=
  ∀ r ∈ st.records, r.fileHash ≠ none

instance (st : VaultState) : Decidable (hashUnique st) := by
  unfold hashUnique; infer_instance

instance (st : VaultState) : Decidable (fingerprintsSet st) := by
  unfold fingerprintsSet; infer_instance

/-! Concrete sample data used to instantiate the theorems. -/

/-- A stand-in hasher mapping every byte stream to the fingerprint `"h"`;
only its determinism matters to the engine. -/
def demoHash : List Nat → Option (List Char) := fun _ => some ['h']

/-- A hasher whose stream read fails. -/
def demoHashFail : List Nat → Option (List Char) := fun _ => none

/-- The empty vault. -/
def vault0 : VaultState := { records := [], blobs := [], nextId := 0, cacheClears := 0 }

/-- A 17-byte `text/plain` upload named `a.txt`. -/
def demoUpload : Upload :=
  { file := some [1, 2, 3]
    name := "a.txt".toList
    contentType := "text/plain".toList
    size := 17
    description := none
    tags := none
    isFavorite := none }

/-- A record with fingerprint `"h"` and reference count 3. -/
def demoRecord3 : FileRecord :=
  { id := 1
    fileHash := some ['h']
    originalFilename := "a.txt".toList
    fileType := "text/plain".toList
    size := 17
    referenceCount := 3
    fileExtension := "txt".toList
    contentCategory := "document".toList
    description := []
    tags := []
    isFavorite := false }

/-- A vault holding `demoRecord3` and its blob. -/
def vault3 : VaultState :=
  { records := [demoRecord3], blobs := [['h']], nextId := 2, cacheClears := 0 }

/-- A vault holding the same record with reference count 2. -/
def vault2 : VaultState :=
  { records := [{ demoRecord3 with referenceCount := 2 }]
    blobs := [['h']]
    nextId := 2
    cacheClears := 0 }

/-- A vault holding the same record with reference count 1 and no tags. -/
def vault1 : VaultState :=
  { records := [{ demoRecord3 with referenceCount := 1 }]
    blobs := [['h']]
    nextId := 2
    cacheClears := 0 }

/-! ## Helper lemmas -/

theorem pyLower_dot : pyLower '.' = '.' := by decide

theorem pyLower_eq_dot {c : Char} (h : pyLower c = '.') : c = '.' := by
  unfold pyLower at h
  split at h
  · exfalso
    have h2 : (Char.ofNatAux (c.toNat + 32) (Or.inl (by omega))).toNat = Char.toNat '.' :=
      congrArg Char.toNat h
    have h3 : c.toNat + 32 = 46 := h2
    omega
  · exact h

theorem rfindPos_drop {c : Char} {l : List Char} {i : Nat} (h : rfindPos c l = some i) :
    l.drop i = c :: l.drop (i + 1) := by
  induction l generalizing i with
  | nil => simp [rfindPos] at h
  | cons x xs ih =>
    unfold rfindPos at h
    split at h
    · rename_i j hj
      injection h with h
      subst h
      simpa using ih hj
    · split at h
      · rename_i hxc
        injection h with h
        subst h
        subst hxc
        rfl
      · exact absurd h (by simp)

theorem rfindPos_none {c : Char} {l : List Char} (h : rfindPos c l = none) :
    ∀ x ∈ l, x ≠ c := by
  induction l with
  | nil => simp
  | cons a t ih =>
    unfold rfindPos at h
    split at h
    · exact absurd h (by simp)
    · rename_i ht
      split at h
      · exact absurd h (by simp)
      · rename_i hac
        intro x hm
        rcases List.mem_cons.mp hm with rfl | hmt
        · exact hac
        · exact ih ht x hmt

theorem rfindPos_after {c : Char} {l : List Char} {i : Nat} (h : rfindPos c l = some i) :
    ∀ x ∈ l.drop (i + 1), x ≠ c := by
  induction l generalizing i with
  | nil => simp [rfindPos] at h
  | cons a t ih =>
    unfold rfindPos at h
    split at h
    · rename_i j hj
      injection h with h
      subst h
      simpa using ih hj
    · rename_i ht
      split at h
      · injection h with h
        subst h
        simpa using rfindPos_none ht
      · exact absurd h (by simp)

theorem dropWhile_dots_eq_self {l : List Char} (h : ∀ x ∈ l, x ≠ '.') :
    l.dropWhile (fun ch => decide (ch = '.')) = l := by
  cases l with
  | nil => rfl
  | cons a t =>
    have : a ≠ '.' := h a (by simp)
    simp [List.dropWhile_cons, this]

theorem stripDots_dot_cons {l : List Char} (h : ∀ x ∈ l, x ≠ '.') :
    stripDots ('.' :: l) = l := by
  unfold stripDots
  rw [List.dropWhile_cons]
  simp only [decide_eq_true_eq, if_pos rfl]
  rw [dropWhile_dots_eq_self h, dropWhile_dots_eq_self (by simpa using h)]
  exact List.reverse_reverse l

theorem fileExtensionOf_eq_amended (p : List Char) :
    fileExtensionOf p = specExtensionAmended p := by
  unfold fileExtensionOf specExtensionAmended splitextExt
  cases hd : rfindPos '.' p with
  | none => simp [stripDots]
  | some d =>
    simp only []
    by_cases h1 :
        (match rfindPos '/' p with | some i => (i : Int) | none => -1) < (d : Int)
    · by_cases h2 :
          ((p.take d).drop
            ((match rfindPos '/' p with | some i => (i : Int) | none => -1) + 1).toNat).any
            (fun ch => decide (ch ≠ '.'))
      · rw [if_pos h1, if_pos h2, if_pos ⟨h1, h2⟩]
        rw [rfindPos_drop hd]
        simp only [List.map_cons, pyLower_dot]
        apply stripDots_dot_cons
        intro x hx
        rcases List.mem_map.mp hx with ⟨y, hy, rfl⟩
        exact fun hc => (rfindPos_after hd y hy) (pyLower_eq_dot hc)
      · rw [if_pos h1, if_neg h2]
        rw [if_neg (by intro hc; exact h2 hc.2)]
        simp [stripDots]
    · rw [if_neg h1, if_neg (by intro hc; exact h1 hc.1)]
      simp [stripDots]

theorem categoryOf_eq_amended (fileType : List Char) :
    (if fileType = [] then [] else categoryOf fileType) = specCategoryAmended fileType := by
  by_cases h0 : fileType = []
  · simp [h0, specCategoryAmended]
  · rw [if_neg h0]
    unfold categoryOf specCategoryAmended
    rw [if_neg h0]
    by_cases hm :
        fileType.takeWhile (fun ch => decide (ch ≠ '/')) = "image".toList ∨
        fileType.takeWhile (fun ch => decide (ch ≠ '/')) = "video".toList ∨
        fileType.takeWhile (fun ch => decide (ch ≠ '/')) = "audio".toList
    · simp only [if_pos hm]
    · rw [if_neg hm, if_neg hm]
      by_cases hpdf : containsSub "pdf".toList fileType = true
      · rw [if_pos hpdf, if_pos (Or.inl hpdf)]
      · by_cases htxt :
            containsSub "text".toList fileType = true ∨
            containsSub "document".toList fileType = true
        · rw [if_neg hpdf, if_pos htxt,
            if_pos (htxt.elim (fun h => Or.inr (Or.inl h)) (fun h => Or.inr (Or.inr h)))]
        · have h3 : ¬(containsSub "pdf".toList fileType = true ∨
              containsSub "text".toList fileType = true ∨
              containsSub "document".toList fileType = true) := by
            rintro (h | h | h)
            exacts [hpdf h, htxt (Or.inl h), htxt (Or.inr h)]
          rw [if_neg hpdf, if_neg htxt, if_neg h3]

/-! ## Claim theorems -/

/-- C6 (counterexample): the claim's extension rule fails on a dotfile.  For the
filename `.bashrc` the text after the last `.` is `bashrc`, but the enricher
(`os.path.splitext`-based) yields an empty extension, because `splitext` treats
the leading dot of a dotfile as part of the name, not as an extension separator. -/
theorem enrich_extension_counterexample :
    claimedExtension ".bashrc".toList = "bashrc".toList ∧
    (enrich ".bashrc".toList "text/x-sh".toList).1 = [] ∧
    (enrich ".bashrc".toList "text/x-sh".toList).1 ≠ claimedExtension ".bashrc".toList := by
  decide

/-- C6 (amended): for every filename and media type, `enrich` returns the extension
given by the claim's rule amended with the `splitext` dotfile exception — empty
when no dot follows the last `/`, or when every character between the last `/`
(or the start) and the last dot is itself a dot — and the category given by the
claim's ordered rules amended so that an empty media type leaves the category
unset instead of mapping to `other`. -/
theorem enrich_eq_amended_spec (name fileType : List Char) :
    enrich name fileType = (specExtensionAmended name, specCategoryAmended fileType) := by
  unfold enrich
  rw [fileExtensionOf_eq_amended, categoryOf_eq_amended]

/-- C5: a record's derived `saved_space` is `size * (referenceCount - 1)` when
`referenceCount > 1` and `0` otherwise, and `savings()` returns exactly the sum of
`size * (referenceCount - 1)` over the records with `referenceCount > 1`, which
coincides with summing `saved_space` over all records. -/
theorem saved_space_savings_identity (r : FileRecord) (rs : List FileRecord) :
    (r.saved_space = if 1 < r.referenceCount then r.size * (r.referenceCount - 1) else 0) ∧
    (savingsTotal rs =
      ((rs.filter (fun x => decide (1 < x.referenceCount))).map
        (fun x => x.size * (x.referenceCount - 1))).sum) ∧
    (savingsTotal rs = (rs.map FileRecord.saved_space).sum) := by
  refine ⟨rfl, rfl, ?_⟩
  induction rs with
  | nil => rfl
  | cons a t ih =>
    by_cases h : 1 < a.referenceCount
    · simp only [savingsTotal, List.filter_cons, decide_eq_true_eq, if_pos h, List.map_cons,
        List.sum_cons] at *
      rw [ih]
      simp [FileRecord.saved_space, h]
    · simp only [savingsTotal, List.filter_cons, decide_eq_true_eq, if_neg h, List.map_cons,
        List.sum_cons] at *
      rw [ih]
      simp [FileRecord.saved_space, h]

/-- C4: for every record set the stats aggregator satisfies the claimed identities:
`withoutDedupBytes = actualBytes + savedBytes`; `efficiencyPercentage` is
`savedBytes / withoutDedupBytes * 100` and `0` when that denominator is `0`;
`totalUploads` is the sum of the reference counts; and `duplicationRate` is
`(totalUploads - uniqueFiles) / totalUploads * 100` and `0` when `totalUploads`
is `0`. -/
theorem stats_identities (rs : List FileRecord) :
    ((stats rs).withoutDedupBytes = (stats rs).actualBytes + (stats rs).savedBytes) ∧
    ((stats rs).withoutDedupBytes = 0 → (stats rs).efficiencyPercentage = 0) ∧
    ((stats rs).withoutDedupBytes ≠ 0 →
      (stats rs).efficiencyPercentage =
        ((stats rs).savedBytes : ℚ) / ((stats rs).withoutDedupBytes : ℚ) * 100) ∧
    ((stats rs).totalUploads = (rs.map (fun r => r.referenceCount)).sum) ∧
    ((stats rs).totalUploads = 0 → (stats rs).duplicationRate = 0) ∧
    ((stats rs).totalUploads ≠ 0 →
      (stats rs).duplicationRate =
        (((stats rs).totalUploads : ℚ) - ((stats rs).uniqueFiles : ℚ)) /
          ((stats rs).totalUploads : ℚ) * 100) := by
  refine ⟨rfl, ?_, ?_, rfl, ?_, ?_⟩
  · intro h
    simp only [stats] at h ⊢
    rw [if_neg (by omega)]
  · intro h
    simp only [stats] at h ⊢
    rw [if_pos (by omega)]
  · intro h
    simp only [stats] at h ⊢
    rw [if_neg (by omega)]
  · intro h
    simp only [stats] at h ⊢
    rw [if_pos (by omega)]

theorem find?_fingerprint_of_mem {l : List FileRecord} {fp : List Char} {r : FileRecord}
    (hu : l.Pairwise (fun a b => a.fileHash = none ∨ a.fileHash ≠ b.fileHash))
    (hm : r ∈ l) (hr : r.fileHash = some fp) :
    l.find? (fun x => decide (x.fileHash = some fp)) = some r := by
  induction l with
  | nil => cases hm
  | cons a t ih =>
    rcases List.mem_cons.mp hm with rfl | hmt
    · exact List.find?_cons_of_pos _ (by simp [hr])
    · have hrel := (List.pairwise_cons.mp hu).1 r hmt
      have hna : ¬(a.fileHash = some fp) := by
        rcases hrel with h | h
        · rw [h]; simp
        · intro hc
          exact h (by rw [hc, hr])
      rw [List.find?_cons_of_neg _ (by simpa using hna)]
      exact ih (List.pairwise_cons.mp hu).2 hmt

theorem find?_fingerprint_update {l : List FileRecord} {fp : List Char} {r0 r1 : FileRecord}
    (h : l.find? (fun x => decide (x.fileHash = some fp)) = some r0)
    (h1 : r1.fileHash = some fp) :
    (l.map (fun x => if x.id = r0.id then r1 else x)).find?
      (fun x => decide (x.fileHash = some fp)) = some r1 := by
  induction l with
  | nil => simp at h
  | cons a t ih =>
    by_cases ha : a.fileHash = some fp
    · rw [List.find?_cons_of_pos _ (by simpa using ha)] at h
      injection h with h
      subst h
      simp only [List.map_cons, if_pos rfl]
      exact List.find?_cons_of_pos _ (by simpa using h1)
    · rw [List.find?_cons_of_neg _ (by simpa using ha)] at h
      simp only [List.map_cons]
      by_cases hid : a.id = r0.id
      · rw [if_pos hid]
        exact List.find?_cons_of_pos _ (by simpa using h1)
      · rw [if_neg hid]
        rw [List.find?_cons_of_neg _ (by simpa using ha)]
        exact ih h

theorem find?_fingerprint_append_new {l : List FileRecord} {fp : List Char}
    {n r1 : FileRecord} (hnone : ∀ x ∈ l, ¬x.fileHash = some fp)
    (h1 : r1.fileHash = some fp) :
    ((l ++ [n]).map (fun x => if x.id = n.id then r1 else x)).find?
      (fun x => decide (x.fileHash = some fp)) = some r1 := by
  induction l with
  | nil =>
    simp only [List.nil_append, List.map_cons, List.map_nil, if_pos rfl]
    exact List.find?_cons_of_pos _ (by simpa using h1)
  | cons a t ih =>
    simp only [List.cons_append, List.map_cons]
    by_cases hid : a.id = n.id
    · rw [if_pos hid]
      exact List.find?_cons_of_pos _ (by simpa using h1)
    · rw [if_neg hid]
      rw [List.find?_cons_of_neg _ (by simpa using hnone a (List.mem_cons_self a t))]
      exact ih (fun x hx => hnone x (List.mem_cons_of_mem a hx))

theorem find?_id_update {l : List FileRecord} {i : Nat} {r0 r1 : FileRecord}
    (h : l.find? (fun x => decide (x.id = i)) = some r0) (h1 : r1.id = i) :
    (l.map (fun x => if x.id = r0.id then r1 else x)).find?
      (fun x => decide (x.id = i)) = some r1 := by
  have hr0 : r0.id = i := by simpa using List.find?_some h
  induction l with
  | nil => simp at h
  | cons a t ih =>
    by_cases ha : a.id = i
    · rw [List.find?_cons_of_pos _ (by simpa using ha)] at h
      injection h with h
      subst h
      simp only [List.map_cons, if_pos rfl]
      exact List.find?_cons_of_pos _ (by simpa using h1)
    · rw [List.find?_cons_of_neg _ (by simpa using ha)] at h
      simp only [List.map_cons]
      have hane : ¬ a.id = r0.id := by rw [hr0]; exact ha
      rw [if_neg hane]
      rw [List.find?_cons_of_neg _ (by simpa using ha)]
      exact ih h

theorem ingest_duplicate_eq {hash : List Nat → Option (List Char)} {st : VaultState}
    {u : Upload} {b : List Nat} {fp : List Char} {r0 : FileRecord}
    (hb : u.file = some b) (hfp : hash b = some fp)
    (hf : findByFingerprint st fp = some r0) :
    ingest hash st u =
      (.ok (incrementExisting r0) false, st.updateRecord (incrementExisting r0)) := by
  simp only [ingest, hb, hfp, hf, ingestResume]

theorem ingest_new_eq {hash : List Nat → Option (List Char)} {st : VaultState}
    {u : Upload} {b : List Nat} {fp : List Char}
    (hb : u.file = some b) (hfp : hash b = some fp)
    (hf : findByFingerprint st fp = none) :
    ingest hash st u =
      (.ok (commitRecord st u fp) true,
        { records := (st.records ++ [buildNewRecord st u]).map
            (fun x => if x.id = (commitRecord st u fp).id then commitRecord st u fp else x)
          blobs := fp :: st.blobs
          nextId := st.nextId + 1
          cacheClears := st.cacheClears + 1 }) := by
  have hnone : ∀ x ∈ st.records, ¬x.fileHash = some fp := by
    intro x hx
    have := List.find?_eq_none.mp hf x hx
    simpa using this
  have hany : ((st.records ++ [buildNewRecord st u]).any
      (fun r => decide (r.fileHash = some fp))) = false := by
    rw [List.any_append, Bool.or_eq_false_iff]
    constructor
    · rw [List.any_eq_false]
      intro x hx
      simpa using hnone x hx
    · simp [buildNewRecord, modelSave]
  simp only [ingest, hb, hfp, hf, ingestResume, createCommit, hany, VaultState.updateRecord]
  rfl

/-- C1: when an upload's bytes are byte-identical to an already-stored record's
content (same fingerprint), `ingest` returns that record's id with its reference
count increased by exactly 1, leaves the stored record's filename, media type,
description, tags and favorite flag unchanged, and a second `ingest` of the same
content returns the same record id again (with the count incremented once more),
whether or not the first call created the record. -/
theorem ingest_content_identity
    (hash : List Nat → Option (List Char)) (st : VaultState) (u1 u2 : Upload)
    (b : List Nat) (fp : List Char)
    (hb1 : u1.file = some b) (hb2 : u2.file = some b) (hfp : hash b = some fp)
    (huniq : hashUnique st) :
    (∀ r ∈ st.records, r.fileHash = some fp →
      (ingest hash st u1).1 = .ok (incrementExisting r) false ∧
      findByFingerprint (ingest hash st u1).2 fp = some (incrementExisting r) ∧
      (incrementExisting r).id = r.id ∧
      (incrementExisting r).referenceCount = r.referenceCount + 1 ∧
      (incrementExisting r).originalFilename = r.originalFilename ∧
      (incrementExisting r).fileType = r.fileType ∧
      (incrementExisting r).description = r.description ∧
      (incrementExisting r).tags = r.tags ∧
      (incrementExisting r).isFavorite = r.isFavorite) ∧
    (∀ r1 n1, (ingest hash st u1).1 = .ok r1 n1 →
      ∃ r2, (ingest hash (ingest hash st u1).2 u2).1 = .ok r2 false ∧
        r2.id = r1.id ∧ r2.referenceCount = r1.referenceCount + 1) := by
  constructor
  · intro r hmem hrfp
    have hfind : findByFingerprint st fp = some r :=
      find?_fingerprint_of_mem huniq hmem hrfp
    rw [ingest_duplicate_eq hb1 hfp hfind]
    refine ⟨rfl, ?_, rfl, rfl, rfl, rfl, rfl, rfl, rfl⟩
    exact @find?_fingerprint_update st.records fp r (incrementExisting r) hfind hrfp
  · intro r1 n1 hok
    cases hf : findByFingerprint st fp with
    | some r0 =>
      rw [ingest_duplicate_eq hb1 hfp hf] at hok ⊢
      injection hok with hok1 hok2
      subst hok1
      have hr0fp : r0.fileHash = some fp := by simpa using List.find?_some hf
      have hfind' : findByFingerprint (st.updateRecord (incrementExisting r0)) fp =
          some (incrementExisting r0) :=
        @find?_fingerprint_update st.records fp r0 (incrementExisting r0) hf hr0fp
      rw [ingest_duplicate_eq hb2 hfp hfind']
      exact ⟨incrementExisting (incrementExisting r0), rfl, rfl, rfl⟩
    | none =>
      rw [ingest_new_eq hb1 hfp hf] at hok ⊢
      injection hok with hok1 hok2
      subst hok1
      have hnone : ∀ x ∈ st.records, ¬x.fileHash = some fp := by
        intro x hx
        have := List.find?_eq_none.mp hf x hx
        simpa using this
      have hfind' : findByFingerprint
          ({ records := (st.records ++ [buildNewRecord st u1]).map
              (fun x => if x.id = (commitRecord st u1 fp).id then commitRecord st u1 fp else x)
             blobs := fp :: st.blobs
             nextId := st.nextId + 1
             cacheClears := st.cacheClears + 1 } : VaultState) fp =
          some (commitRecord st u1 fp) :=
        @find?_fingerprint_append_new st.records fp (buildNewRecord st u1)
          (commitRecord st u1 fp) hnone rfl
      rw [ingest_duplicate_eq hb2 hfp hfind']
      exact ⟨incrementExisting (commitRecord st u1 fp), rfl, rfl, rfl⟩

theorem modelSave_referenceCount (r : FileRecord) :
    (modelSave r).referenceCount = r.referenceCount := rfl

theorem modelSave_id (r : FileRecord) : (modelSave r).id = r.id := rfl

theorem modelSave_fileHash (r : FileRecord) : (modelSave r).fileHash = r.fileHash := rfl

theorem destroy_not_found {st : VaultState} {i : Nat} (hf : findById st i = none) :
    destroy st i = (.notFound, st) := by
  simp only [destroy, hf]

theorem destroy_found_gt {st : VaultState} {i : Nat} {r : FileRecord}
    (hf : findById st i = some r) (hrc : 1 < r.referenceCount) :
    destroy st i = (.decremented (r.referenceCount - 1),
      st.updateRecord (modelSave { r with referenceCount := r.referenceCount - 1 })) := by
  simp only [destroy, hf, if_pos hrc]

theorem destroy_found_le {st : VaultState} {i : Nat} {r : FileRecord}
    (hf : findById st i = some r) (hrc : ¬1 < r.referenceCount) :
    destroy st i = (.deleted,
      { st with
        records := st.records.filter (fun x => decide (¬x.id = i))
        blobs := match r.fileHash with
          | some fp => st.blobs.filter (fun bl => decide (¬bl = fp))
          | none => st.blobs }) := by
  simp only [destroy, hf, if_neg hrc]

theorem findById_filter_out (st : VaultState) (i : Nat) :
    (st.records.filter (fun x => decide (¬x.id = i))).find?
      (fun x => decide (x.id = i)) = none := by
  rw [List.find?_eq_none]
  intro x hx
  have := (List.mem_filter.mp hx).2
  simpa using this

theorem findById_after_delete (s : VaultState) (i : Nat) (bl : List (List Char)) :
    findById
      { records := s.records.filter (fun x => decide (¬x.id = i))
        blobs := bl
        nextId := s.nextId
        cacheClears := s.cacheClears } i = none :=
  findById_filter_out s i

theorem not_mem_filter_out (l : List (List Char)) (fp : List Char) :
    fp ∉ l.filter (fun bl => decide (¬bl = fp)) := by
  intro hc
  have := (List.mem_filter.mp hc).2
  simp at this

/-- C2: `release` on an absent id fails with `NotFound` and changes nothing; on a
record with count above one it decrements by one and leaves the blob store
untouched; on a record with count one it deletes the record and releases its
fingerprint-keyed blob; and releasing a record with count 3 yields
`Decremented 2`, `Decremented 1`, `Deleted`, then `NotFound` on the fourth call. -/
theorem release_lifecycle (st : VaultState) (i : Nat) :
    (findById st i = none → destroy st i = (.notFound, st)) ∧
    (∀ r, findById st i = some r → 1 < r.referenceCount →
      (destroy st i).1 = .decremented (r.referenceCount - 1) ∧
      (destroy st i).2.blobs = st.blobs) ∧
    (∀ r, findById st i = some r → r.referenceCount = 1 →
      (destroy st i).1 = .deleted ∧
      findById (destroy st i).2 i = none ∧
      ∀ fp, r.fileHash = some fp → fp ∉ (destroy st i).2.blobs) ∧
    (∀ r, findById st i = some r → r.referenceCount = 3 →
      (destroy st i).1 = .decremented 2 ∧
      (destroy (destroy st i).2 i).1 = .decremented 1 ∧
      (destroy (destroy (destroy st i).2 i).2 i).1 = .deleted ∧
      (destroy (destroy (destroy (destroy st i).2 i).2 i).2 i).1 = .notFound) := by
  refine ⟨?_, ?_, ?_, ?_⟩
  · intro hf
    exact destroy_not_found hf
  · intro r hf hrc
    rw [destroy_found_gt hf hrc]
    exact ⟨rfl, rfl⟩
  · intro r hf h1
    rw [destroy_found_le hf (by omega)]
    refine ⟨rfl, findById_filter_out st i, ?_⟩
    intro fp hfp
    rw [hfp]
    exact not_mem_filter_out st.blobs fp
  · intro r hf h3
    have hid : r.id = i := by simpa using List.find?_some hf
    have e1 := destroy_found_gt hf (show 1 < r.referenceCount by omega)
    rw [h3] at e1
    rw [show (3:Nat) - 1 = 2 from rfl] at e1
    have hf1 : findById (st.updateRecord (modelSave { r with referenceCount := 2 })) i =
        some (modelSave { r with referenceCount := 2 }) :=
      @find?_id_update st.records i r (modelSave { r with referenceCount := 2 }) hf hid
    have e2 := destroy_found_gt hf1 Nat.one_lt_two
    rw [modelSave_referenceCount] at e2
    rw [show ({ r with referenceCount := 2 } : FileRecord).referenceCount = 2 from rfl] at e2
    rw [show (2:Nat) - 1 = 1 from rfl] at e2
    have hf2 : findById
        ((st.updateRecord (modelSave { r with referenceCount := 2 })).updateRecord
          (modelSave { modelSave { r with referenceCount := 2 } with referenceCount := 1 })) i =
        some (modelSave { modelSave { r with referenceCount := 2 } with referenceCount := 1 }) :=
      @find?_id_update (st.updateRecord (modelSave { r with referenceCount := 2 })).records i
        (modelSave { r with referenceCount := 2 })
        (modelSave { modelSave { r with referenceCount := 2 } with referenceCount := 1 }) hf1 hid
    have e3 := destroy_found_le hf2 (show ¬(1:Nat) < 1 from by omega)
    refine ⟨?_, ?_, ?_, ?_⟩
    · rw [e1]
    · simp only [e1, e2]
    · simp only [e1, e2, e3]
    · simp only [e1, e2, e3]
      exact congrArg Prod.fst (destroy_not_found (findById_after_delete _ i _))

theorem commitRecord_fileHash (st : VaultState) (u : Upload) (fp : List Char) :
    (commitRecord st u fp).fileHash = some fp := rfl

/-- C3: a completed create returns a record whose fingerprint is set; if no stored
record had a null fingerprint before, none has one after any completed `ingest`
(the transient null of the two-step save is never visible in the returned state);
and an upload whose fingerprint cannot be computed fails without touching the
stored state. -/
theorem create_fingerprint_atomic (hash : List Nat → Option (List Char))
    (st : VaultState) (u : Upload) :
    (∀ r, (ingest hash st u).1 = .ok r true → r.fileHash ≠ none) ∧
    (fingerprintsSet st → ∀ r n, (ingest hash st u).1 = .ok r n →
      fingerprintsSet (ingest hash st u).2) ∧
    (∀ b, u.file = some b → hash b = none →
      (ingest hash st u).1 = .hashUnavailable ∧ (ingest hash st u).2 = st) := by
  cases hub : u.file with
  | none =>
    refine ⟨?_, ?_, ?_⟩
    · intro r hok
      simp [ingest, hub] at hok
    · intro hfs r n hok
      simp [ingest, hub] at hok
    · intro b hb
      exact absurd hb (by simp)
  | some b0 =>
    cases hh : hash b0 with
    | none =>
      refine ⟨?_, ?_, ?_⟩
      · intro r hok
        simp [ingest, hub, hh] at hok
      · intro hfs r n hok
        simp [ingest, hub, hh] at hok
      · intro b hb hnb
        injection hb with hb
        subst hb
        exact ⟨by simp [ingest, hub, hh], by simp [ingest, hub, hh]⟩
    | some fp =>
      have hc3 : ∀ b, some b0 = some b → hash b = none →
          (ingest hash st u).1 = .hashUnavailable ∧ (ingest hash st u).2 = st := by
        intro b hb hnb
        injection hb with hb
        subst hb
        rw [hnb] at hh
        exact absurd hh (by simp)
      cases hf : findByFingerprint st fp with
      | some r0 =>
        refine ⟨?_, ?_, hc3⟩
        · intro r hok
          rw [ingest_duplicate_eq hub hh hf] at hok
          injection hok with h1 h2
          exact absurd h2 (by simp)
        · intro hfs r n hok
          rw [ingest_duplicate_eq hub hh hf]
          unfold fingerprintsSet at hfs ⊢
          intro x hx
          simp only [VaultState.updateRecord] at hx
          rcases List.mem_map.mp hx with ⟨y, hy, rfl⟩
          by_cases hyid : y.id = (incrementExisting r0).id
          · rw [if_pos hyid]
            have hr0 : r0 ∈ st.records := List.mem_of_find?_eq_some hf
            rw [show (incrementExisting r0).fileHash = r0.fileHash from rfl]
            exact hfs r0 hr0
          · rw [if_neg hyid]
            exact hfs y hy
      | none =>
        refine ⟨?_, ?_, hc3⟩
        · intro r hok
          rw [ingest_new_eq hub hh hf] at hok
          injection hok with h1 h2
          subst h1
          intro hc
          rw [commitRecord_fileHash] at hc
          exact absurd hc (by simp)
        · intro hfs r n hok
          rw [ingest_new_eq hub hh hf]
          unfold fingerprintsSet at hfs ⊢
          intro x hx
          simp only at hx
          rcases List.mem_map.mp hx with ⟨y, hy, rfl⟩
          rcases List.mem_append.mp hy with hy1 | hy2
          · by_cases hyid : y.id = (commitRecord st u fp).id
            · rw [if_pos hyid, commitRecord_fileHash]
              simp
            · rw [if_neg hyid]
              exact hfs y hy1
          · have hyb : y = buildNewRecord st u := by simpa using hy2
            subst hyb
            rw [if_pos (show (buildNewRecord st u).id = (commitRecord st u fp).id from rfl),
              commitRecord_fileHash]
            simp

theorem bulkDeleteStep_adds_one (acc : Nat × List Nat × VaultState) (i : Nat) :
    (bulkDeleteStep acc i).1 + (bulkDeleteStep acc i).2.1.length =
      acc.1 + acc.2.1.length + 1 := by
  unfold bulkDeleteStep
  cases hf : findById acc.2.2 i with
  | none => simp; omega
  | some r =>
    by_cases hrc : 1 < r.referenceCount
    · simp [hrc]
      omega
    · simp [hrc]
      omega

theorem bulkDelete_foldl_counts (ids : List Nat) :
    ∀ acc : Nat × List Nat × VaultState,
      (ids.foldl bulkDeleteStep acc).1 + (ids.foldl bulkDeleteStep acc).2.1.length =
        acc.1 + acc.2.1.length + ids.length := by
  induction ids with
  | nil => intro acc; simp
  | cons i t ih =>
    intro acc
    rw [List.foldl_cons]
    rw [ih (bulkDeleteStep acc i)]
    rw [bulkDeleteStep_adds_one]
    simp
    omega

/-- C10: for every nonempty list of requested ids, `bulk_delete` answers with a
`deleted_count` and one error entry per failed id such that
`deleted_count + |errors| = |requested ids|`; a found record counts 1 whether it is
decremented or physically deleted, a missing id contributes exactly one error, and
no failure aborts the remaining ids (the empty list is rejected up front). -/
theorem bulk_delete_counts (st : VaultState) (ids : List Nat) :
    (ids ≠ [] → ∃ cnt errs, (bulkDelete st ids).1 = .ok cnt ids.length errs ∧
      cnt + errs.length = ids.length) ∧
    (∀ i r, findById st i = some r → (bulkDelete st [i]).1 = .ok 1 1 []) ∧
    (∀ i, findById st i = none → (bulkDelete st [i]).1 = .ok 0 1 [i]) := by
  refine ⟨?_, ?_, ?_⟩
  · intro hne
    refine ⟨(ids.foldl bulkDeleteStep (0, [], st)).1,
      (ids.foldl bulkDeleteStep (0, [], st)).2.1, ?_, ?_⟩
    · simp only [bulkDelete, if_neg hne]
    · have := bulkDelete_foldl_counts ids (0, [], st)
      simpa using this
  · intro i r hf
    simp only [bulkDelete, if_neg (by simp : ¬([i] : List Nat) = [])]
    simp only [List.foldl_cons, List.foldl_nil]
    unfold bulkDeleteStep
    simp only [hf]
    by_cases hrc : 1 < r.referenceCount
    · simp [hrc]
    · simp [hrc]
  · intro i hf
    simp only [bulkDelete, if_neg (by simp : ¬([i] : List Nat) = [])]
    simp only [List.foldl_cons, List.foldl_nil]
    unfold bulkDeleteStep
    simp only [hf]
    simp

/-- C7 (code bug): `bulk_tag` checks membership against the frozen pre-loop
snapshot `current_tags = set(file_obj.tags)`, never updating it, so a request
whose tag list repeats a label (here `["a", "a"]` against a record with no tags)
stores that label twice — the stored tags are not duplicate-free, contradicting
"deduplicated on insert". -/
theorem bulk_tag_duplicate_labels :
    (bulkTag vault1 [1] ["a".toList, "a".toList]).1 = .ok 1 [] ∧
    ((bulkTag vault1 [1] ["a".toList, "a".toList]).2.records.map (fun r => r.tags)) =
      [["a".toList, "a".toList]] ∧
    ¬(addTags [] ["a".toList, "a".toList]).Nodup := by
  decide

/-- C8 (code bug): the duplicate-upload increment (`views.py` lines 107-115) and
both `destroy` paths (lines 155-166) mutate the store and return without calling
`cache.clear()`, while the create-new path, `bulk_delete` and `bulk_tag` do call
it — so the cache-invalidation hook is not called after every successful mutation. -/
theorem mutation_without_cache_invalidation :
    ((ingest demoHash vault2 demoUpload).1 =
        .ok (incrementExisting { demoRecord3 with referenceCount := 2 }) false ∧
      (ingest demoHash vault2 demoUpload).2.cacheClears = vault2.cacheClears) ∧
    ((destroy vault2 1).1 = .decremented 1 ∧
      (destroy vault2 1).2.cacheClears = vault2.cacheClears) ∧
    ((destroy vault1 1).1 = .deleted ∧
      (destroy vault1 1).2.cacheClears = vault1.cacheClears) ∧
    (ingest demoHash vault0 demoUpload).2.cacheClears = vault0.cacheClears + 1 ∧
    (bulkDelete vault2 [1]).2.cacheClears = vault2.cacheClears + 1 ∧
    (bulkTag vault2 [1] ["a".toList]).2.cacheClears = vault2.cacheClears + 1 := by
  decide

/-- C9 (code bug): under the check-then-act race, a second `ingest` of
never-seen content whose duplicate lookup ran against the pre-create state
commits against the post-create state; the unique index on `file_hash` rejects
its hash-setting save, `create` has no handler for that violation, so the caller
sees an error and the fingerprint's record keeps `referenceCount = 1` instead of
the claimed retry-as-increment yielding `referenceCount = 2`. -/
theorem create_race_surfaces_error :
    (ingestResume (ingest demoHash vault0 demoUpload).2 demoUpload ['h']
        (findByFingerprint vault0 ['h'])).1 = .constraintViolation ∧
    (((ingestResume (ingest demoHash vault0 demoUpload).2 demoUpload ['h']
        (findByFingerprint vault0 ['h'])).2.records.filter
          (fun r => decide (r.fileHash = some ['h']))).map
        (fun r => r.referenceCount)) = [1] := by
  decide

/-- Witness for C1 at a concrete vault, upload and hasher. -/
theorem ingest_content_identity_witness :
    (∀ r ∈ vault2.records, r.fileHash = some ['h'] →
      (ingest demoHash vault2 demoUpload).1 = .ok (incrementExisting r) false ∧
      findByFingerprint (ingest demoHash vault2 demoUpload).2 ['h'] =
        some (incrementExisting r) ∧
      (incrementExisting r).id = r.id ∧
      (incrementExisting r).referenceCount = r.referenceCount + 1 ∧
      (incrementExisting r).originalFilename = r.originalFilename ∧
      (incrementExisting r).fileType = r.fileType ∧
      (incrementExisting r).description = r.description ∧
      (incrementExisting r).tags = r.tags ∧
      (incrementExisting r).isFavorite = r.isFavorite) ∧
    (∀ r1 n1, (ingest demoHash vault2 demoUpload).1 = .ok r1 n1 →
      ∃ r2, (ingest demoHash (ingest demoHash vault2 demoUpload).2 demoUpload).1 =
          .ok r2 false ∧
        r2.id = r1.id ∧ r2.referenceCount = r1.referenceCount + 1) :=
  ingest_content_identity demoHash vault2 demoUpload demoUpload [1, 2, 3] ['h'] rfl rfl rfl
    (by decide)

/-- Witness for C2 at a concrete vault and id. -/
theorem release_lifecycle_witness :
    (destroy vault3 1).1 = .decremented 2 ∧
    (destroy (destroy vault3 1).2 1).1 = .decremented 1 ∧
    (destroy (destroy (destroy vault3 1).2 1).2 1).1 = .deleted ∧
    (destroy (destroy (destroy (destroy vault3 1).2 1).2 1).2 1).1 = .notFound ∧
    destroy vault3 99 = (.notFound, vault3) := by
  refine ⟨?_, ?_, ?_, ?_, ?_⟩
  · exact ((release_lifecycle vault3 1).2.2.2 demoRecord3 (by decide) (by decide)).1
  · exact ((release_lifecycle vault3 1).2.2.2 demoRecord3 (by decide) (by decide)).2.1
  · exact ((release_lifecycle vault3 1).2.2.2 demoRecord3 (by decide) (by decide)).2.2.1
  · exact ((release_lifecycle vault3 1).2.2.2 demoRecord3 (by decide) (by decide)).2.2.2
  · exact (release_lifecycle vault3 99).1 (by decide)

/-- Witness for C3 at a concrete vault, upload and both hashers. -/
theorem create_fingerprint_atomic_witness :
    (commitRecord vault0 demoUpload ['h']).fileHash ≠ none ∧
    fingerprintsSet (ingest demoHash vault0 demoUpload).2 ∧
    ((ingest demoHashFail vault0 demoUpload).1 = .hashUnavailable ∧
      (ingest demoHashFail vault0 demoUpload).2 = vault0) := by
  refine ⟨?_, ?_, ?_⟩
  · exact (create_fingerprint_atomic demoHash vault0 demoUpload).1
      (commitRecord vault0 demoUpload ['h']) (by decide)
  · exact (create_fingerprint_atomic demoHash vault0 demoUpload).2.1 (by decide)
      (commitRecord vault0 demoUpload ['h']) true (by decide)
  · exact (create_fingerprint_atomic demoHashFail vault0 demoUpload).2.2 [1, 2, 3] rfl rfl

/-- Witness for C4 on the empty record set and on a deduplicated singleton. -/
theorem stats_identities_witness :
    (stats ([] : List FileRecord)).efficiencyPercentage = 0 ∧
    (stats ([] : List FileRecord)).duplicationRate = 0 ∧
    (stats [demoRecord3]).efficiencyPercentage =
      ((stats [demoRecord3]).savedBytes : ℚ) /
        ((stats [demoRecord3]).withoutDedupBytes : ℚ) * 100 ∧
    (stats [demoRecord3]).duplicationRate =
      (((stats [demoRecord3]).totalUploads : ℚ) - ((stats [demoRecord3]).uniqueFiles : ℚ)) /
        ((stats [demoRecord3]).totalUploads : ℚ) * 100 := by
  refine ⟨?_, ?_, ?_, ?_⟩
  · exact (stats_identities []).2.1 rfl
  · exact (stats_identities []).2.2.2.2.1 rfl
  · exact (stats_identities [demoRecord3]).2.2.1 (by decide)
  · exact (stats_identities [demoRecord3]).2.2.2.2.2 (by decide)

/-- Witness for C10 at a concrete vault with one present and one absent id. -/
theorem bulk_delete_counts_witness :
    (∃ cnt errs, (bulkDelete vault2 [1, 99]).1 = .ok cnt ([1, 99] : List Nat).length errs ∧
      cnt + errs.length = ([1, 99] : List Nat).length) ∧
    (bulkDelete vault2 [1]).1 = .ok 1 1 [] ∧
    (bulkDelete vault2 [99]).1 = .ok 0 1 [99] := by
  refine ⟨?_, ?_, ?_⟩
  · exact (bulk_delete_counts vault2 [1, 99]).1 (by decide)
  · exact (bulk_delete_counts vault2 [1]).2.1 1 { demoRecord3 with referenceCount := 2 }
      (by decide)
  · exact (bulk_delete_counts vault2 [99]).2.2 99 (by decide)
